import Mathlib

/-!
# Rust-SpriteSheet-Cutter: a shallow embedding in Lean 4

This file embeds the frame-detection and background-removal core of the
spritesheet cutter (`src/src/main.rs`, the variant with fallback detection;
the root `src/main.rs` variant shares `is_background_pixel`,
`detect_background_color` and the boundary/assembly structure with different
threshold constants) and proves the testable properties stated in the
specification.

Modelling conventions:
* `u8`/`u32` machine values are naturals; the Rust code never exercises
  wrap-around on the modelled paths (subtractions are only applied to sorted
  boundary values, so `Nat` truncated subtraction coincides with `u32`).
* `i32` differences (`pixel as i32 - bg as i32`) are modelled over `ℤ` with
  `Int.natAbs` giving `.abs()`.
* The `f32` ratio comparisons (`count as f32 / total as f32 > c` for the
  constants `c ∈ {0.02, 0.2, 0.6, 0.85}`) are modelled by the exact rational
  comparison via cross multiplication (e.g. `n / t > 0.02` as `50 * n > t`).
  The `f32` and the exact comparison agree except on a band of width `< 2⁻²³`
  around the constant; no theorem below evaluates inside that band.
  A `0/0` division yields NaN, which compares false, matching `50 * 0 > 0`.
* `image::to_luma8` (the `image` crate) is the integer sRGB luma
  `(2126 r + 7152 g + 722 b) / 10000`; alpha is discarded.
* Rust `HashMap` iteration order is unspecified, so the `max_by_key` mode
  selection in `detect_most_common_color` / `detect_background_color` is
  modelled deterministically: distinct values are scanned in `List.dedup`
  order and a later value wins a tie in counts (the `max_by_key` rule).
  Every concrete instance evaluated below has a strict mode, where every
  iteration order yields the same answer.
-/

/-- An RGBA pixel (`image::Rgba<u8>`); channel values are in `0..=255`. -/
structure Pix where
  r : ℕ
  g : ℕ
  b : ℕ
  a : ℕ
deriving DecidableEq, Repr

/-- A decoded RGBA raster image (`DynamicImage` / `RgbaImage`):
dimensions plus total pixel lookup. Only coordinates `x < width`,
`y < height` are meaningful; the code never reads outside them. -/
structure Img where
  width : ℕ
  height : ℕ
  pix : ℕ → ℕ → Pix

/-- A grayscale image (`Image<Luma<u8>>`): per-pixel luma intensity. -/
structure GrayImg where
  width : ℕ
  height : ℕ
  pix : ℕ → ℕ → ℕ

/-- The `image` crate's RGBA→luma conversion used by `to_luma8`:
integer sRGB luma `(2126 r + 7152 g + 722 b) / 10000`, alpha discarded. -/
def lumaOf (p : Pix) : ℕ := (2126 * p.r + 7152 * p.g + 722 * p.b) / 10000

/-- `img.to_luma8()`: grayscale projection of an RGBA image. -/
def toLuma8 (img : Img) : GrayImg :=
  ⟨img.width, img.height, fun x y => lumaOf (img.pix x y)⟩

/-- `CutterConfig` (src/src/main.rs 9-22). -/
structure CutterConfig where
  min_sprite_size : ℕ
  max_sprite_size : ℕ
  background_tolerance : ℕ
  remove_background : Bool
  output_dir : String
deriving DecidableEq, Repr

/-- `CutterConfig::default()` of the src/src variant (src/src/main.rs 24-34). -/
def defaultConfig : CutterConfig :=
  { min_sprite_size := 8
    max_sprite_size := 1024
    background_tolerance := 20
    remove_background := true
    output_dir := "assets2" }

/-- `SpriteFrame` (src/src/main.rs 36-43). -/
structure SpriteFrame where
  x : ℕ
  y : ℕ
  width : ℕ
  height : ℕ
deriving DecidableEq, Repr

/-- The interior coordinates scanned by the boundary loops:
Rust `for x in 1..ext.saturating_sub(1)`, i.e. `1, …, ext - 2`. -/
def interiorCoords (ext : ℕ) : List ℕ := List.range' 1 (ext - 1 - 1)

/-- Rust `Vec::dedup`: remove consecutive duplicate elements. -/
def rustDedup : List ℕ → List ℕ
  | [] => []
  | [a] => [a]
  | a :: b :: rest =>
    if a = b then rustDedup (b :: rest) else a :: rustDedup (b :: rest)

/-- Rust `boundaries.sort(); boundaries.dedup();` — ascending stable sort
followed by consecutive dedup (on `ℕ` any correct sort yields the unique
sorted arrangement, so `insertionSort` models `slice::sort`). -/
def sortDedup (l : List ℕ) : List ℕ := rustDedup (l.insertionSort (· ≤ ·))

/-- `transparent_count` of column `x`: pixels of the column with luma < 10
(src/src/main.rs 546-554). -/
def colDarkCount (g : GrayImg) (x : ℕ) : ℕ :=
  ((List.range g.height).filter (fun y => decide (g.pix x y < 10))).length

/-- `color_changes` of column `x`: adjacent vertical pairs whose luma
differs by more than 30 (src/src/main.rs 561-568). -/
def colChangeCount (g : GrayImg) (x : ℕ) : ℕ :=
  ((List.range (g.height - 1)).filter
    (fun y => decide (30 < ((g.pix x y : ℤ) - (g.pix x (y + 1) : ℤ)).natAbs))).length

/-- The body of the `find_vertical_boundaries` column loop: boundary when the
dark fraction exceeds 0.6 (`3·h < 5·dark`), or else when the edge-change
fraction exceeds 0.2 (`h < 5·changes`). -/
def isVerticalBoundaryCol (g : GrayImg) (x : ℕ) : Bool :=
  if 3 * g.height < 5 * colDarkCount g x then true
  else decide (g.height < 5 * colChangeCount g x)

/-- `find_vertical_boundaries` (src/src/main.rs 540-580): sentinel 0, interior
boundary columns, sentinel `width`, then `sort` + `dedup`. -/
def find_vertical_boundaries (g : GrayImg) : List ℕ :=
  sortDedup (0 :: (interiorCoords g.width).filter (isVerticalBoundaryCol g) ++ [g.width])

/-- `transparent_count` of row `y` (src/src/main.rs 588-595). -/
def rowDarkCount (g : GrayImg) (y : ℕ) : ℕ :=
  ((List.range g.width).filter (fun x => decide (g.pix x y < 10))).length

/-- `color_changes` of row `y` (src/src/main.rs 603-610). -/
def rowChangeCount (g : GrayImg) (y : ℕ) : ℕ :=
  ((List.range (g.width - 1)).filter
    (fun x => decide (30 < ((g.pix x y : ℤ) - (g.pix (x + 1) y : ℤ)).natAbs))).length

/-- The body of the `find_horizontal_boundaries` row loop. -/
def isHorizontalBoundaryRow (g : GrayImg) (y : ℕ) : Bool :=
  if 3 * g.width < 5 * rowDarkCount g y then true
  else decide (g.width < 5 * rowChangeCount g y)

/-- `find_horizontal_boundaries` (src/src/main.rs 583-622). -/
def find_horizontal_boundaries (g : GrayImg) : List ℕ :=
  sortDedup (0 :: (interiorCoords g.height).filter (isHorizontalBoundaryRow g) ++ [g.height])

/-- `non_transparent_pixels` of `frame_has_content`: pixels of the rectangle
that lie inside the image and have alpha > 10 (src/src/main.rs 629-642). -/
def nonTransparentCount (img : Img) (x y w h : ℕ) : ℕ :=
  ((List.range' y h).flatMap (fun py =>
    (List.range' x w).filter (fun px =>
      decide (px < img.width) && decide (py < img.height) &&
      decide (10 < (img.pix px py).a)))).length

/-- `frame_has_content` (src/src/main.rs 625-646): content density
`n / (w·h) > 0.02`, modelled exactly as `w·h < 50·n`. -/
def frame_has_content (img : Img) (x y w h : ℕ) : Bool :=
  decide (w * h < 50 * nonTransparentCount img x y w h)

/-- The frame-size validation of the primary grid assembly
(src/src/main.rs 223-226). -/
def sizeOk (cfg : CutterConfig) (w h : ℕ) : Bool :=
  decide (cfg.min_sprite_size ≤ w) && decide (cfg.min_sprite_size ≤ h) &&
  decide (w ≤ cfg.max_sprite_size) && decide (h ≤ cfg.max_sprite_size)

/-- The primary grid assembly of `detect_sprite_frames`
(src/src/main.rs 203-239, before the fallback): the nested
`for i … for j …` loop over adjacent boundary pairs, filtering by size and
content. The outer loop ranges over vertical boundaries (x), the inner one
over horizontal boundaries (y). -/
def primaryFrames (cfg : CutterConfig) (img : Img) : List SpriteFrame :=
  let g := toLuma8 img
  let vb := find_vertical_boundaries g
  let hb := find_horizontal_boundaries g
  (List.range (vb.length - 1)).flatMap (fun i =>
    (List.range (hb.length - 1)).filterMap (fun j =>
      let x := vb.getD i 0
      let y := hb.getD j 0
      let fw := vb.getD (i + 1) 0 - x
      let fh := hb.getD (j + 1) 0 - y
      if sizeOk cfg fw fh && frame_has_content img x y fw fh then
        some ⟨x, y, fw, fh⟩
      else none))

/-- The mode selection shared by the two color detectors: Rust builds a
`HashMap` of counts and takes `max_by_key`; modelled over the distinct
values in `dedup` order, a later value winning ties. -/
def modeOrDefault {α : Type} [DecidableEq α] (samples : List α) (dflt : α) : α :=
  (samples.dedup.foldl (fun acc c =>
      match acc with
      | none => some c
      | some b => if samples.count b ≤ samples.count c then some c else some b)
    none).getD dflt

/-- The subsampled grid of `detect_most_common_color`: every 4th pixel in both
axes (`step_by(4)`), rows outer (src/src/main.rs 485-491). -/
def sampleEvery4 (g : GrayImg) : List ℕ :=
  (List.range ((g.height + 3) / 4)).flatMap (fun yi =>
    (List.range ((g.width + 3) / 4)).map (fun xi => g.pix (4 * xi) (4 * yi)))

/-- `detect_most_common_color` (src/src/main.rs 481-497): mode of the
subsampled luma values, `unwrap_or(0)`. -/
def detect_most_common_color (g : GrayImg) : ℕ :=
  modeOrDefault (sampleEvery4 g) 0

/-- `empty_pixels` of column `x` in the fallback segmenter: pixels whose luma
is within 15 of the detected background (src/src/main.rs 324-333). -/
def colEmptyCount (g : GrayImg) (bg x : ℕ) : ℕ :=
  ((List.range g.height).filter
    (fun y => decide (((g.pix x y : ℤ) - (bg : ℤ)).natAbs ≤ 15))).length

/-- Column-is-boundary test of `find_empty_space_boundaries_horizontal`:
empty fraction > 0.85 modelled exactly as `85·h < 100·empty`. -/
def isEmptyCol (g : GrayImg) (bg x : ℕ) : Bool :=
  decide (85 * g.height < 100 * colEmptyCount g bg x)

/-- `empty_pixels` of row `y` (src/src/main.rs 368-377). -/
def rowEmptyCount (g : GrayImg) (bg y : ℕ) : ℕ :=
  ((List.range g.width).filter
    (fun x => decide (((g.pix x y : ℤ) - (bg : ℤ)).natAbs ≤ 15))).length

/-- Row-is-boundary test of `find_empty_space_boundaries_vertical`. -/
def isEmptyRow (g : GrayImg) (bg y : ℕ) : Bool :=
  decide (85 * g.width < 100 * rowEmptyCount g bg y)

/-- The merge loop of the fallback boundary functions
(src/src/main.rs 346-354): keep a boundary when it is at least
`min_sprite_size` past the last kept one, or equals the axis end;
`last` starts at 0. -/
def filterClose (minSize ext : ℕ) : ℕ → List ℕ → List ℕ
  | _, [] => []
  | last, b :: rest =>
    if minSize ≤ b - last ∨ b = ext then b :: filterClose minSize ext b rest
    else filterClose minSize ext last rest

/-- `find_empty_space_boundaries_horizontal` (src/src/main.rs 316-357). -/
def find_empty_space_boundaries_horizontal (cfg : CutterConfig) (img : Img) : List ℕ :=
  let g := toLuma8 img
  let bg := detect_most_common_color g
  filterClose cfg.min_sprite_size img.width 0
    (sortDedup (0 :: (interiorCoords img.width).filter (isEmptyCol g bg) ++ [img.width]))

/-- `find_empty_space_boundaries_vertical` (src/src/main.rs 360-401). -/
def find_empty_space_boundaries_vertical (cfg : CutterConfig) (img : Img) : List ℕ :=
  let g := toLuma8 img
  let bg := detect_most_common_color g
  filterClose cfg.min_sprite_size img.height 0
    (sortDedup (0 :: (interiorCoords img.height).filter (isEmptyRow g bg) ++ [img.height]))

/-- The first pass of `fallback_detection` (src/src/main.rs 258-282):
one full-height strip per adjacent vertical-boundary pair, validating only
the strip width against the size bounds. -/
def fallbackHorizontalPass (cfg : CutterConfig) (img : Img) : List SpriteFrame :=
  let vbs := find_empty_space_boundaries_horizontal cfg img
  if 1 < vbs.length then
    (List.range (vbs.length - 1)).filterMap (fun i =>
      let x := vbs.getD i 0
      let fw := vbs.getD (i + 1) 0 - x
      if (decide (cfg.min_sprite_size ≤ fw) && decide (fw ≤ cfg.max_sprite_size)) &&
          frame_has_content img x 0 fw img.height then
        some ⟨x, 0, fw, img.height⟩
      else none)
  else []

/-- The second pass of `fallback_detection` (src/src/main.rs 284-310):
one full-width strip per adjacent horizontal-boundary pair, validating only
the strip height against the size bounds. -/
def fallbackVerticalPass (cfg : CutterConfig) (img : Img) : List SpriteFrame :=
  let hbs := find_empty_space_boundaries_vertical cfg img
  if 1 < hbs.length then
    (List.range (hbs.length - 1)).filterMap (fun j =>
      let y := hbs.getD j 0
      let fh := hbs.getD (j + 1) 0 - y
      if (decide (cfg.min_sprite_size ≤ fh) && decide (fh ≤ cfg.max_sprite_size)) &&
          frame_has_content img 0 y img.width fh then
        some ⟨0, y, img.width, fh⟩
      else none)
  else []

/-- `fallback_detection` (src/src/main.rs 254-313): slice along vertical
boundaries into full-height strips; if that produces nothing, slice along
horizontal boundaries into full-width strips. Only the sliced axis is
size-validated; the other axis spans the whole image. -/
def fallback_detection (cfg : CutterConfig) (img : Img) : List SpriteFrame :=
  let hframes := fallbackHorizontalPass cfg img
  if hframes.isEmpty then fallbackVerticalPass cfg img else hframes

/-- `detect_sprite_frames` (src/src/main.rs 203-251): primary grid assembly,
falling back to `fallback_detection` when it yields nothing. -/
def detect_sprite_frames (cfg : CutterConfig) (img : Img) : List SpriteFrame :=
  let frames := primaryFrames cfg img
  if frames.isEmpty then fallback_detection cfg img else frames

/-- The corner block sampled by `detect_background_color`
(src/src/main.rs 680-687): the top-left `min(10,w) × min(10,h)` pixels,
rows outer. -/
def blockSamples (img : Img) : List Pix :=
  (List.range (min 10 img.height)).flatMap (fun y =>
    (List.range (min 10 img.width)).map (fun x => img.pix x y))

/-- `detect_background_color` (src/src/main.rs 676-695): mode of the corner
block, `unwrap_or(Rgba([255,255,255,255]))`. -/
def detect_background_color (img : Img) : Pix :=
  modeOrDefault (blockSamples img) ⟨255, 255, 255, 255⟩

/-- `is_background_pixel` (src/src/main.rs 698-704): all of R, G, B within
`background_tolerance` of the background; alpha not inspected. -/
def is_background_pixel (cfg : CutterConfig) (p bg : Pix) : Bool :=
  decide (((p.r : ℤ) - (bg.r : ℤ)).natAbs ≤ cfg.background_tolerance) &&
  decide (((p.g : ℤ) - (bg.g : ℤ)).natAbs ≤ cfg.background_tolerance) &&
  decide (((p.b : ℤ) - (bg.b : ℤ)).natAbs ≤ cfg.background_tolerance)

/-- `remove_background` (src/src/main.rs 655-673): detect the corner-block
background, then map every matching pixel to fully transparent, leaving the
rest unchanged. The mutation loop reads each pixel before writing it, so the
pointwise description is exact; dimensions are preserved. -/
def remove_background (cfg : CutterConfig) (img : Img) : Img :=
  let bg := detect_background_color img
  ⟨img.width, img.height, fun x y =>
    if is_background_pixel cfg (img.pix x y) bg then ⟨0, 0, 0, 0⟩ else img.pix x y⟩

/-- Pixel access extended with fully-transparent pixels outside the image;
used to state that `frame_has_content` treats skipped out-of-bounds pixels
as transparent. -/
def paddedPix (img : Img) (x y : ℕ) : Pix :=
  if x < img.width ∧ y < img.height then img.pix x y else ⟨0, 0, 0, 0⟩

/-- The rectangle scan of `frame_has_content` rephrased over `paddedPix`:
no bounds test, out-of-bounds pixels read as transparent. -/
def paddedCount (img : Img) (x y w h : ℕ) : ℕ :=
  ((List.range' y h).flatMap (fun py =>
    (List.range' x w).filter (fun px => decide (10 < (paddedPix img px py).a)))).length

deriving instance DecidableEq for Except

/-- Abstracted outcome of processing one image inside the per-image loop of
`process_directory` (src/src/main.rs 88-108): the `Result` of
`process_spritesheet` (number of frames extracted, or a decode/save error)
and the `Result` of `copy_single_sprite` (invoked only when zero frames were
extracted). File I/O is opaque, so outcomes are supplied as values. -/
structure ImageJob where
  processResult : Except String ℕ
  copyResult : Except String Unit
deriving DecidableEq

/-- The per-image loop of `process_directory` (src/src/main.rs 88-108),
threading `total_processed`: a failing `process_spritesheet` is caught
(`match … Err(e) => eprintln!`) and the loop continues; a zero-frame success
invokes `copy_single_sprite(…)?`, whose failure propagates out of the loop. -/
def processImages : ℕ → List ImageJob → Except String ℕ
  | total, [] => Except.ok total
  | total, j :: rest =>
    match j.processResult with
    | Except.ok n =>
      if n = 0 then
        match j.copyResult with
        | Except.ok _ => processImages (total + 1) rest
        | Except.error e => Except.error e
      else processImages (total + 1) rest
    | Except.error _ => processImages total rest

/-- The per-image loop of the root variant's `process_directory`
(src/main.rs 75-83): `if let Err(e) = … { eprintln! }` — every per-image
outcome is caught and the loop continues. -/
def processImagesRoot : List (Except String Unit) → Except String Unit
  | [] => Except.ok ()
  | r :: rest =>
    match r with
    | Except.ok _ => processImagesRoot rest
    | Except.error _ => processImagesRoot rest

/-! ## Concrete instances used as witnesses and counterexamples -/

/-- An 8×8 image that is uniformly opaque mid-gray `(128,128,128,255)`. -/
def imgGray8 : Img := ⟨8, 8, fun _ _ => ⟨128, 128, 128, 255⟩⟩

/-- A 4×4 image that is uniformly fully transparent `(0,0,0,0)`. -/
def imgClear4 : Img := ⟨4, 4, fun _ _ => ⟨0, 0, 0, 0⟩⟩

/-- A 17×17 image: opaque white cells with an opaque black cross at
`x = 8` and `y = 8`, producing a 2×2 grid of detected frames. -/
def imgGrid17 : Img :=
  ⟨17, 17, fun x y => if x = 8 ∨ y = 8 then ⟨0, 0, 0, 255⟩ else ⟨255, 255, 255, 255⟩⟩

/-- A 10×1 image that is uniformly opaque gray `(200,200,200,255)`. -/
def imgStrip10 : Img := ⟨10, 1, fun _ _ => ⟨200, 200, 200, 255⟩⟩

/-- A 4×4 image: opaque white with an opaque black column at `x = 2`. -/
def imgCol4 : Img :=
  ⟨4, 4, fun x _ => if x = 2 then ⟨0, 0, 0, 255⟩ else ⟨255, 255, 255, 255⟩⟩

/-- A config with `min_sprite_size = 1`, `max_sprite_size = 3`. -/
def cfgSmall : CutterConfig := ⟨1, 3, 20, true, "assets2"⟩

/-- The root variant's default config: `background_tolerance = 10`. -/
def cfgTol10 : CutterConfig := ⟨16, 512, 10, true, "assets2"⟩

/-- A 3×3 image, pure white `(255,255,255,255)` everywhere except a single
red `(255,0,0,255)` pixel in the interior at `(1,1)`; all four corners are
white. -/
def imgDot3 : Img :=
  ⟨3, 3, fun x y => if x = 1 ∧ y = 1 then ⟨255, 0, 0, 255⟩ else ⟨255, 255, 255, 255⟩⟩

/-- A 12×12 image: white on the top-left 10×10 block, blue elsewhere. -/
def imgBlockA : Img :=
  ⟨12, 12, fun x y =>
    if x < 10 ∧ y < 10 then ⟨255, 255, 255, 255⟩ else ⟨0, 0, 255, 255⟩⟩

/-- A 12×12 image: white on the top-left 10×10 block, green elsewhere —
agreeing with `imgBlockA` exactly on the sampled corner block. -/
def imgBlockB : Img :=
  ⟨12, 12, fun x y =>
    if x < 10 ∧ y < 10 then ⟨255, 255, 255, 255⟩ else ⟨0, 255, 0, 255⟩⟩

/-! ## Boundary-list pipeline lemmas -/

theorem head?_eq_of_sorted_of_mem {l : List ℕ} (hs : l.Sorted (· ≤ ·)) (h0 : 0 ∈ l) :
    l.head? = some 0 := by
  cases l with
  | nil => cases h0
  | cons a t =>
    have ha : a = 0 := by
      rcases List.mem_cons.mp h0 with h | h
      · omega
      · have := List.rel_of_pairwise_cons hs h
        omega
    simp [ha]

theorem getLast?_eq_of_sorted_of_le {l : List ℕ} {m : ℕ} (hs : l.Sorted (· ≤ ·))
    (hm : m ∈ l) (hle : ∀ b ∈ l, b ≤ m) : l.getLast? = some m := by
  induction l with
  | nil => cases hm
  | cons a t ih =>
    cases t with
    | nil =>
      rcases List.mem_cons.mp hm with h | h
      · simp [h]
      · cases h
    | cons c t' =>
      rw [List.getLast?_cons_cons]
      have hst : (c :: t').Sorted (· ≤ ·) := hs.of_cons
      have hmt : m ∈ c :: t' := by
        rcases List.mem_cons.mp hm with h | h
        · have hac : a ≤ c := List.rel_of_pairwise_cons hs (List.mem_cons_self c t')
          have hcm : c ≤ m := hle c (by simp)
          exact List.mem_cons.mpr (Or.inl (by omega))
        · exact h
      exact ih hst hmt (fun b hb => hle b (List.mem_cons_of_mem a hb))

theorem rustDedup_head? : ∀ l : List ℕ, (rustDedup l).head? = l.head?
  | [] => rfl
  | [_] => rfl
  | a :: b :: rest => by
    by_cases h : a = b
    · rw [show rustDedup (a :: b :: rest) = rustDedup (b :: rest) by simp [rustDedup, h],
        rustDedup_head? (b :: rest)]
      simp [h]
    · rw [show rustDedup (a :: b :: rest) = a :: rustDedup (b :: rest) by simp [rustDedup, h]]
      rfl

theorem rustDedup_ne_nil {l : List ℕ} (h : l ≠ []) : rustDedup l ≠ [] := by
  intro hnil
  have := rustDedup_head? l
  rw [hnil] at this
  exact h (List.head?_eq_none_iff.mp this.symm)

theorem rustDedup_getLast? : ∀ l : List ℕ, (rustDedup l).getLast? = l.getLast?
  | [] => rfl
  | [_] => rfl
  | a :: b :: rest => by
    by_cases h : a = b
    · rw [show rustDedup (a :: b :: rest) = rustDedup (b :: rest) by simp [rustDedup, h],
        rustDedup_getLast? (b :: rest), List.getLast?_cons_cons]
    · rw [show rustDedup (a :: b :: rest) = a :: rustDedup (b :: rest) by simp [rustDedup, h]]
      obtain ⟨c, t, hct⟩ :=
        List.exists_cons_of_ne_nil (rustDedup_ne_nil (List.cons_ne_nil b rest))
      rw [hct, List.getLast?_cons_cons, ← hct, rustDedup_getLast? (b :: rest),
        List.getLast?_cons_cons]

theorem rustDedup_chain' : ∀ l : List ℕ, l.Sorted (· ≤ ·) → (rustDedup l).Chain' (· < ·)
  | [], _ => List.chain'_nil
  | [a], _ => List.chain'_singleton a
  | a :: b :: rest, hs => by
    have hst : (b :: rest).Sorted (· ≤ ·) := hs.of_cons
    by_cases h : a = b
    · rw [show rustDedup (a :: b :: rest) = rustDedup (b :: rest) by simp [rustDedup, h]]
      exact rustDedup_chain' (b :: rest) hst
    · rw [show rustDedup (a :: b :: rest) = a :: rustDedup (b :: rest) by simp [rustDedup, h]]
      refine List.chain'_cons'.mpr ⟨?_, rustDedup_chain' (b :: rest) hst⟩
      intro c hc
      rw [rustDedup_head? (b :: rest)] at hc
      simp only [List.head?_cons, Option.mem_def, Option.some.injEq] at hc
      have hab : a ≤ b := List.rel_of_pairwise_cons hs (by simp)
      omega

theorem sortDedup_boundary (ext : ℕ) (mid : List ℕ) (hmid : ∀ b ∈ mid, b ≤ ext) :
    (sortDedup (0 :: mid ++ [ext])).head? = some 0 ∧
    (sortDedup (0 :: mid ++ [ext])).getLast? = some ext ∧
    (sortDedup (0 :: mid ++ [ext])).Chain' (· < ·) := by
  set raw : List ℕ := 0 :: mid ++ [ext] with hraw
  have hsorted : (raw.insertionSort (· ≤ ·)).Sorted (· ≤ ·) :=
    List.sorted_insertionSort _ raw
  have hperm : List.Perm (raw.insertionSort (· ≤ ·)) raw := List.perm_insertionSort _ raw
  have h0 : 0 ∈ raw.insertionSort (· ≤ ·) := hperm.mem_iff.mpr (by simp [hraw])
  have hext : ext ∈ raw.insertionSort (· ≤ ·) := hperm.mem_iff.mpr (by simp [hraw])
  have hle : ∀ b ∈ raw.insertionSort (· ≤ ·), b ≤ ext := by
    intro b hb
    have hb' : b ∈ raw := hperm.mem_iff.mp hb
    rw [hraw] at hb'
    rcases List.mem_cons.mp hb' with rfl | hmem
    · omega
    · rcases List.mem_append.mp hmem with hm | hm
      · exact hmid b hm
      · simp only [List.mem_singleton] at hm
        omega
  refine ⟨?_, ?_, rustDedup_chain' _ hsorted⟩
  · rw [sortDedup, rustDedup_head?]
    exact head?_eq_of_sorted_of_mem hsorted h0
  · rw [sortDedup, rustDedup_getLast?]
    exact getLast?_eq_of_sorted_of_le hsorted hext hle

theorem interior_filter_le (ext : ℕ) (p : ℕ → Bool) :
    ∀ b ∈ (interiorCoords ext).filter p, b ≤ ext := by
  intro b hb
  have hmem : b ∈ interiorCoords ext := List.mem_of_mem_filter hb
  simp only [interiorCoords] at hmem
  have := List.mem_range'_1.mp hmem
  omega

theorem filterClose_sublist (minS ext : ℕ) : ∀ (last : ℕ) (l : List ℕ),
    (filterClose minS ext last l).Sublist l
  | _, [] => List.Sublist.refl []
  | last, b :: rest => by
    rw [filterClose]
    split
    · exact (filterClose_sublist minS ext b rest).cons₂ b
    · exact (filterClose_sublist minS ext last rest).cons b

theorem filterClose_getLast? (minS ext : ℕ) : ∀ (last : ℕ) (l : List ℕ),
    l.getLast? = some ext → (filterClose minS ext last l).getLast? = some ext
  | _, [], h => by simp at h
  | last, b :: rest, h => by
    cases rest with
    | nil =>
      simp only [List.getLast?_singleton, Option.some.injEq] at h
      subst h
      rw [filterClose, if_pos (Or.inr rfl)]
      rfl
    | cons c t =>
      rw [List.getLast?_cons_cons] at h
      rw [filterClose]
      split
      · have htail := filterClose_getLast? minS ext b (c :: t) h
        have hne : filterClose minS ext b (c :: t) ≠ [] := by
          intro hnil
          rw [hnil] at htail
          simp at htail
        obtain ⟨d, u, hdu⟩ := List.exists_cons_of_ne_nil hne
        rw [hdu, List.getLast?_cons_cons, ← hdu, htail]
      · exact filterClose_getLast? minS ext last (c :: t) h

theorem filterClose_head?_ge (minS ext : ℕ) : ∀ (last : ℕ) (l : List ℕ) (b : ℕ),
    (filterClose minS ext last l).head? = some b → minS ≤ b - last ∨ b = ext
  | _, [], b, h => by simp [filterClose] at h
  | last, c :: rest, b, h => by
    rw [filterClose] at h
    split at h
    · simp only [List.head?_cons, Option.some.injEq] at h
      subst h
      assumption
    · exact filterClose_head?_ge minS ext last rest b h

theorem nodup_of_chain'_lt {l : List ℕ} (h : l.Chain' (· < ·)) : l.Nodup :=
  (List.chain'_iff_pairwise.mp h).imp Nat.ne_of_lt

/-! ## Boundary-function specifications -/

/-- The invariant claimed for all boundary lists: non-empty, strictly
increasing (hence duplicate-free), starting at 0 and ending at the axis
extent. Enjoyed by the primary detector's lists. -/
abbrev PrimaryBoundarySpec (ext : ℕ) (l : List ℕ) : Prop :=
  l ≠ [] ∧ l.Chain' (· < ·) ∧ l.Nodup ∧ l.head? = some 0 ∧ l.getLast? = some ext

/-- The invariant actually enjoyed by the fallback segmenter's merged
boundary lists: the leading 0 sentinel survives the merge step only when
`min_sprite_size = 0` or the extent is 0; in general the first element is
either at least `min_sprite_size` or equal to the extent. -/
abbrev FallbackBoundarySpec (minS ext : ℕ) (l : List ℕ) : Prop :=
  l ≠ [] ∧ l.Chain' (· < ·) ∧ l.Nodup ∧ l.getLast? = some ext ∧
    ∀ b, l.head? = some b → minS ≤ b ∨ b = ext

theorem find_vertical_boundaries_spec (g : GrayImg) :
    PrimaryBoundarySpec g.width (find_vertical_boundaries g) := by
  obtain ⟨h1, h2, h3⟩ := sortDedup_boundary g.width
    ((interiorCoords g.width).filter (isVerticalBoundaryCol g))
    (interior_filter_le g.width _)
  refine ⟨?_, h3, nodup_of_chain'_lt h3, h1, h2⟩
  intro hnil
  rw [find_vertical_boundaries] at hnil
  rw [hnil] at h1
  simp at h1

theorem find_horizontal_boundaries_spec (g : GrayImg) :
    PrimaryBoundarySpec g.height (find_horizontal_boundaries g) := by
  obtain ⟨h1, h2, h3⟩ := sortDedup_boundary g.height
    ((interiorCoords g.height).filter (isHorizontalBoundaryRow g))
    (interior_filter_le g.height _)
  refine ⟨?_, h3, nodup_of_chain'_lt h3, h1, h2⟩
  intro hnil
  rw [find_horizontal_boundaries] at hnil
  rw [hnil] at h1
  simp at h1

theorem filterClose_spec (minS ext : ℕ) (l : List ℕ)
    (hlast : l.getLast? = some ext) (hchain : l.Chain' (· < ·)) :
    FallbackBoundarySpec minS ext (filterClose minS ext 0 l) := by
  have hlast' := filterClose_getLast? minS ext 0 l hlast
  have hchain' : (filterClose minS ext 0 l).Chain' (· < ·) :=
    List.chain'_iff_pairwise.mpr
      ((List.chain'_iff_pairwise.mp hchain).sublist (filterClose_sublist minS ext 0 l))
  refine ⟨?_, hchain', nodup_of_chain'_lt hchain', hlast', ?_⟩
  · intro hnil
    rw [hnil] at hlast'
    simp at hlast'
  · intro b hb
    have := filterClose_head?_ge minS ext 0 l b hb
    omega

theorem find_empty_space_boundaries_horizontal_spec (cfg : CutterConfig) (img : Img) :
    FallbackBoundarySpec cfg.min_sprite_size img.width
      (find_empty_space_boundaries_horizontal cfg img) := by
  obtain ⟨_, h2, h3⟩ := sortDedup_boundary img.width
    ((interiorCoords img.width).filter
      (isEmptyCol (toLuma8 img) (detect_most_common_color (toLuma8 img))))
    (interior_filter_le img.width _)
  exact filterClose_spec cfg.min_sprite_size img.width _ h2 h3

theorem find_empty_space_boundaries_vertical_spec (cfg : CutterConfig) (img : Img) :
    FallbackBoundarySpec cfg.min_sprite_size img.height
      (find_empty_space_boundaries_vertical cfg img) := by
  obtain ⟨_, h2, h3⟩ := sortDedup_boundary img.height
    ((interiorCoords img.height).filter
      (isEmptyRow (toLuma8 img) (detect_most_common_color (toLuma8 img))))
    (interior_filter_le img.height _)
  exact filterClose_spec cfg.min_sprite_size img.height _ h2 h3

/-! ## Uniform transparent images produce no frames -/

theorem nonTransparentCount_eq_zero {img : Img} {c : Pix}
    (huni : ∀ x < img.width, ∀ y < img.height, img.pix x y = c) (ha : c.a ≤ 10)
    (x y w h : ℕ) : nonTransparentCount img x y w h = 0 := by
  simp only [nonTransparentCount, List.length_eq_zero, List.flatMap_eq_nil_iff]
  intro py _
  rw [List.filter_eq_nil_iff]
  intro px _
  simp only [Bool.and_eq_true, decide_eq_true_eq]
  rintro ⟨⟨h1, h2⟩, h3⟩
  rw [huni px h1 py h2] at h3
  omega

theorem frame_has_content_false_of_transparent {img : Img} {c : Pix}
    (huni : ∀ x < img.width, ∀ y < img.height, img.pix x y = c) (ha : c.a ≤ 10)
    (x y w h : ℕ) : frame_has_content img x y w h = false := by
  simp [frame_has_content, nonTransparentCount_eq_zero huni ha]

theorem primaryFrames_nil_of_transparent {img : Img} {c : Pix}
    (huni : ∀ x < img.width, ∀ y < img.height, img.pix x y = c) (ha : c.a ≤ 10)
    (cfg : CutterConfig) : primaryFrames cfg img = [] := by
  simp only [primaryFrames]
  rw [List.flatMap_eq_nil_iff]
  intro i _
  rw [List.filterMap_eq_nil_iff]
  intro j _
  simp only [frame_has_content_false_of_transparent huni ha, Bool.and_false,
    Bool.false_eq_true, if_false]

theorem fallbackHorizontalPass_nil_of_transparent {img : Img} {c : Pix}
    (huni : ∀ x < img.width, ∀ y < img.height, img.pix x y = c) (ha : c.a ≤ 10)
    (cfg : CutterConfig) : fallbackHorizontalPass cfg img = [] := by
  simp only [fallbackHorizontalPass]
  split
  · rw [List.filterMap_eq_nil_iff]
    intro i _
    simp only [frame_has_content_false_of_transparent huni ha, Bool.and_false,
      Bool.false_eq_true, if_false]
  · rfl

theorem fallbackVerticalPass_nil_of_transparent {img : Img} {c : Pix}
    (huni : ∀ x < img.width, ∀ y < img.height, img.pix x y = c) (ha : c.a ≤ 10)
    (cfg : CutterConfig) : fallbackVerticalPass cfg img = [] := by
  simp only [fallbackVerticalPass]
  split
  · rw [List.filterMap_eq_nil_iff]
    intro j _
    simp only [frame_has_content_false_of_transparent huni ha, Bool.and_false,
      Bool.false_eq_true, if_false]
  · rfl

/-! ## Membership extraction for the frame assemblers -/

theorem eq_of_if_some {α : Type} {c : Bool} {v x : α}
    (hx : (if c then some v else none) = some x) : x = v ∧ c = true := by
  cases c with
  | false => simp at hx
  | true =>
    simp only [if_true, Option.some.injEq] at hx
    exact ⟨hx.symm, rfl⟩

theorem of_mem_primaryFrames {cfg : CutterConfig} {img : Img} {f : SpriteFrame}
    (hf : f ∈ primaryFrames cfg img) :
    sizeOk cfg f.width f.height = true ∧
    frame_has_content img f.x f.y f.width f.height = true := by
  simp only [primaryFrames] at hf
  obtain ⟨i, _, hf⟩ := List.mem_flatMap.mp hf
  obtain ⟨j, _, hG⟩ := List.mem_filterMap.mp hf
  obtain ⟨rfl, hcond⟩ := eq_of_if_some hG
  simp only [Bool.and_eq_true] at hcond
  exact ⟨hcond.1, hcond.2⟩

theorem of_mem_fallbackHorizontalPass {cfg : CutterConfig} {img : Img} {f : SpriteFrame}
    (hf : f ∈ fallbackHorizontalPass cfg img) :
    cfg.min_sprite_size ≤ f.width ∧ f.width ≤ cfg.max_sprite_size ∧
    f.y = 0 ∧ f.height = img.height ∧
    frame_has_content img f.x f.y f.width f.height = true := by
  simp only [fallbackHorizontalPass] at hf
  split at hf
  · obtain ⟨i, _, hG⟩ := List.mem_filterMap.mp hf
    obtain ⟨rfl, hcond⟩ := eq_of_if_some hG
    simp only [Bool.and_eq_true, decide_eq_true_eq] at hcond
    exact ⟨hcond.1.1, hcond.1.2, rfl, rfl, hcond.2⟩
  · cases hf

theorem of_mem_fallbackVerticalPass {cfg : CutterConfig} {img : Img} {f : SpriteFrame}
    (hf : f ∈ fallbackVerticalPass cfg img) :
    cfg.min_sprite_size ≤ f.height ∧ f.height ≤ cfg.max_sprite_size ∧
    f.x = 0 ∧ f.width = img.width ∧
    frame_has_content img f.x f.y f.width f.height = true := by
  simp only [fallbackVerticalPass] at hf
  split at hf
  · obtain ⟨j, _, hG⟩ := List.mem_filterMap.mp hf
    obtain ⟨rfl, hcond⟩ := eq_of_if_some hG
    simp only [Bool.and_eq_true, decide_eq_true_eq] at hcond
    exact ⟨hcond.1.1, hcond.1.2, rfl, rfl, hcond.2⟩
  · cases hf

/-! ## Ordering of the primary frame list -/

theorem range_pairwise_lt_mem (n : ℕ) :
    (List.range n).Pairwise (fun i j => i < j ∧ j < n) := by
  have h := List.Pairwise.and_mem.mp (List.pairwise_lt_range n)
  exact h.imp (fun hab => ⟨hab.2.2, List.mem_range.mp hab.2.1⟩)

theorem getD_lt_getD_of_chain' {l : List ℕ} (h : l.Chain' (· < ·)) {i j : ℕ}
    (hij : i < j) (hj : j < l.length) : l.getD i 0 < l.getD j 0 := by
  have hp := List.chain'_iff_pairwise.mp h
  have hi : i < l.length := lt_trans hij hj
  have hgi : l.getD i 0 = l.get ⟨i, hi⟩ := by
    simp [List.getD_eq_getElem?_getD, List.getElem?_eq_getElem hi]
  have hgj : l.getD j 0 = l.get ⟨j, hj⟩ := by
    simp [List.getD_eq_getElem?_getD, List.getElem?_eq_getElem hj]
  rw [hgi, hgj]
  exact List.pairwise_iff_get.mp hp ⟨i, hi⟩ ⟨j, hj⟩ (Fin.mk_lt_mk.mpr hij)

theorem pairwise_flatMap_aux {α β : Type} {R : β → β → Prop} {l : List α} {F : α → List β}
    (h1 : ∀ a ∈ l, (F a).Pairwise R)
    (h2 : l.Pairwise (fun a a' => ∀ x ∈ F a, ∀ y ∈ F a', R x y)) :
    (l.flatMap F).Pairwise R := by
  have : l.flatMap F = (l.map F).flatten := rfl
  rw [this, List.pairwise_flatten]
  constructor
  · intro l' hl'
    obtain ⟨a, ha, rfl⟩ := List.mem_map.mp hl'
    exact h1 a ha
  · exact List.pairwise_map.mpr h2

/-! ## frame_has_content over padded pixel access -/

theorem nonTransparentCount_eq_paddedCount (img : Img) (x y w h : ℕ) :
    nonTransparentCount img x y w h = paddedCount img x y w h := by
  simp only [nonTransparentCount, paddedCount]
  congr 1
  have : ∀ py ∈ List.range' y h,
      (List.range' x w).filter (fun px =>
        decide (px < img.width) && decide (py < img.height) &&
        decide (10 < (img.pix px py).a)) =
      (List.range' x w).filter (fun px => decide (10 < (paddedPix img px py).a)) := by
    intro py _
    apply List.filter_congr
    intro px _
    by_cases h1 : px < img.width <;> by_cases h2 : py < img.height <;>
      simp [paddedPix, h1, h2]
  calc (List.range' y h).flatMap (fun py =>
        (List.range' x w).filter (fun px =>
          decide (px < img.width) && decide (py < img.height) &&
          decide (10 < (img.pix px py).a)))
      = ((List.range' y h).map (fun py =>
          (List.range' x w).filter (fun px =>
            decide (px < img.width) && decide (py < img.height) &&
            decide (10 < (img.pix px py).a)))).flatten := rfl
    _ = ((List.range' y h).map (fun py =>
          (List.range' x w).filter
            (fun px => decide (10 < (paddedPix img px py).a)))).flatten := by
        rw [List.map_eq_map_iff.mpr this]
    _ = (List.range' y h).flatMap (fun py =>
          (List.range' x w).filter (fun px => decide (10 < (paddedPix img px py).a))) := rfl

theorem nonTransparentCount_eq_zero_of_outside {img : Img} {x y : ℕ}
    (hcase : img.width ≤ x ∨ img.height ≤ y) (w h : ℕ) :
    nonTransparentCount img x y w h = 0 := by
  simp only [nonTransparentCount, List.length_eq_zero, List.flatMap_eq_nil_iff]
  intro py hpy
  rw [List.filter_eq_nil_iff]
  intro px hpx
  have hx' := List.mem_range'_1.mp hpx
  have hy' := List.mem_range'_1.mp hpy
  simp only [Bool.and_eq_true, decide_eq_true_eq]
  rintro ⟨⟨h1, h2⟩, _⟩
  rcases hcase with hc | hc <;> omega

/-! ## blockSamples reads only the corner block -/

theorem blockSamples_congr {A B : Img} (hw : A.width = B.width) (hh : A.height = B.height)
    (hagree : ∀ x < min 10 A.width, ∀ y < min 10 A.height, A.pix x y = B.pix x y) :
    blockSamples A = blockSamples B := by
  have hmaps : ∀ y ∈ List.range (min 10 A.height),
      (List.range (min 10 A.width)).map (fun x => A.pix x y) =
      (List.range (min 10 A.width)).map (fun x => B.pix x y) := by
    intro y hy
    apply List.map_eq_map_iff.mpr
    intro x hx
    exact hagree x (List.mem_range.mp hx) y (List.mem_range.mp hy)
  calc blockSamples A
      = ((List.range (min 10 A.height)).map (fun y =>
          (List.range (min 10 A.width)).map (fun x => A.pix x y))).flatten := rfl
    _ = ((List.range (min 10 A.height)).map (fun y =>
          (List.range (min 10 A.width)).map (fun x => B.pix x y))).flatten := by
        rw [List.map_eq_map_iff.mpr hmaps]
    _ = blockSamples B := by rw [hw, hh]; rfl

/-! ## Claim theorems -/

/-- C1 (amended): every boundary list of the primary detector
(`find_vertical_boundaries` / `find_horizontal_boundaries`) is non-empty,
strictly increasing, duplicate-free, starts at 0 and ends at the axis
extent. Every merged boundary list of the fallback segmenter
(`find_empty_space_boundaries_horizontal` / `_vertical`) is non-empty,
strictly increasing, duplicate-free and ends at the axis extent, but its
first element need not be 0: the merge step drops the leading 0 sentinel
whenever `min_sprite_size > 0` and the extent is positive, so the first
element is at least `min_sprite_size` or equal to the extent. -/
theorem boundary_list_invariants :
    (∀ g : GrayImg,
      PrimaryBoundarySpec g.width (find_vertical_boundaries g) ∧
      PrimaryBoundarySpec g.height (find_horizontal_boundaries g)) ∧
    (∀ (cfg : CutterConfig) (img : Img),
      FallbackBoundarySpec cfg.min_sprite_size img.width
        (find_empty_space_boundaries_horizontal cfg img) ∧
      FallbackBoundarySpec cfg.min_sprite_size img.height
        (find_empty_space_boundaries_vertical cfg img)) :=
  ⟨fun g => ⟨find_vertical_boundaries_spec g, find_horizontal_boundaries_spec g⟩,
   fun cfg img => ⟨find_empty_space_boundaries_horizontal_spec cfg img,
     find_empty_space_boundaries_vertical_spec cfg img⟩⟩

/-- C1 counterexample: on the uniform opaque 10×1 image `imgStrip10` with the
default config, the fallback segmenter's merged vertical-boundary list is
`[8, 10]` — its first element is not 0, refuting the claimed invariant for
the fallback lists. -/
theorem boundary_list_first_element_cx :
    (find_empty_space_boundaries_horizontal defaultConfig imgStrip10).head? ≠ some 0 := by
  decide

/-- Witness for `boundary_list_invariants`, instantiated on `imgStrip10`,
whose merged fallback list starts with 8. -/
theorem boundary_list_invariants_witness :
    defaultConfig.min_sprite_size ≤ 8 ∨ 8 = imgStrip10.width :=
  (boundary_list_invariants.2 defaultConfig imgStrip10).1.2.2.2.2 8 (by decide)

/-- C2 (amended): a uniform single-color image yields zero frames from both
the primary grid assembly and the fallback segmenter — and hence from
`detect_sprite_frames` — provided the uniform color is transparent
(alpha ≤ 10), since then no rectangle can pass the content filter. A uniform
*opaque* image is detected as one full-image frame instead (see the
counterexample). -/
theorem uniform_transparent_zero_frames :
    ∀ (cfg : CutterConfig) (img : Img) (c : Pix),
      (∀ x < img.width, ∀ y < img.height, img.pix x y = c) → c.a ≤ 10 →
      primaryFrames cfg img = [] ∧ fallback_detection cfg img = [] ∧
      detect_sprite_frames cfg img = [] := by
  intro cfg img c huni ha
  have h1 := primaryFrames_nil_of_transparent huni ha cfg
  have h2 : fallback_detection cfg img = [] := by
    simp [fallback_detection, fallbackHorizontalPass_nil_of_transparent huni ha,
      fallbackVerticalPass_nil_of_transparent huni ha]
  refine ⟨h1, h2, ?_⟩
  simp [detect_sprite_frames, h1, h2]

/-- C2 counterexample: `imgGray8` is a uniform single-color image (opaque
mid-gray), yet the primary grid assembly returns one full-image frame, not
zero frames. -/
theorem uniform_image_zero_frames_cx :
    (∀ x < imgGray8.width, ∀ y < imgGray8.height, imgGray8.pix x y = ⟨128, 128, 128, 255⟩) ∧
    primaryFrames defaultConfig imgGray8 = [⟨0, 0, 8, 8⟩] ∧
    primaryFrames defaultConfig imgGray8 ≠ [] := by
  decide

/-- Witness for `uniform_transparent_zero_frames` on the uniform fully
transparent image `imgClear4`. -/
theorem uniform_transparent_zero_frames_witness :
    primaryFrames defaultConfig imgClear4 = [] ∧
    fallback_detection defaultConfig imgClear4 = [] ∧
    detect_sprite_frames defaultConfig imgClear4 = [] :=
  uniform_transparent_zero_frames defaultConfig imgClear4 ⟨0, 0, 0, 0⟩
    (fun _ _ _ _ => rfl) (by decide)

/-- C3 (confirmed): every frame emitted by the primary grid assembly has
width and height within `[min_sprite_size, max_sprite_size]` and content
density strictly above the 2% threshold (`w·h < 50·n` is exactly
`n/(w·h) > 0.02`), for every image and every config. -/
theorem primary_frames_size_and_content :
    ∀ (cfg : CutterConfig) (img : Img), ∀ f ∈ primaryFrames cfg img,
      (cfg.min_sprite_size ≤ f.width ∧ f.width ≤ cfg.max_sprite_size ∧
       cfg.min_sprite_size ≤ f.height ∧ f.height ≤ cfg.max_sprite_size) ∧
      f.width * f.height < 50 * nonTransparentCount img f.x f.y f.width f.height := by
  intro cfg img f hf
  obtain ⟨hs, hc⟩ := of_mem_primaryFrames hf
  simp only [sizeOk, Bool.and_eq_true, decide_eq_true_eq] at hs
  simp only [frame_has_content, decide_eq_true_eq] at hc
  exact ⟨⟨hs.1.1.1, hs.1.2, hs.1.1.2, hs.2⟩, hc⟩

/-- Witness for `primary_frames_size_and_content` on the single frame the
primary assembly finds in `imgGray8`. -/
theorem primary_frames_size_and_content_witness :
    (defaultConfig.min_sprite_size ≤ 8 ∧ 8 ≤ defaultConfig.max_sprite_size ∧
     defaultConfig.min_sprite_size ≤ 8 ∧ 8 ≤ defaultConfig.max_sprite_size) ∧
    8 * 8 < 50 * nonTransparentCount imgGray8 0 0 8 8 :=
  primary_frames_size_and_content defaultConfig imgGray8 ⟨0, 0, 8, 8⟩ (by decide)

/-- C4 (amended): every frame emitted by `fallback_detection` passes the
content filter, and its *sliced* axis obeys the size bounds; but the
opposite axis simply spans the whole image without any size check — a
full-height strip can exceed `max_sprite_size` in height (see the
counterexample). -/
theorem fallback_frames_filter :
    ∀ (cfg : CutterConfig) (img : Img), ∀ f ∈ fallback_detection cfg img,
      f.width * f.height < 50 * nonTransparentCount img f.x f.y f.width f.height ∧
      ((cfg.min_sprite_size ≤ f.width ∧ f.width ≤ cfg.max_sprite_size ∧
        f.y = 0 ∧ f.height = img.height) ∨
       (cfg.min_sprite_size ≤ f.height ∧ f.height ≤ cfg.max_sprite_size ∧
        f.x = 0 ∧ f.width = img.width)) := by
  intro cfg img f hf
  simp only [fallback_detection] at hf
  split at hf
  · obtain ⟨h1, h2, h3, h4, h5⟩ := of_mem_fallbackVerticalPass hf
    simp only [frame_has_content, decide_eq_true_eq] at h5
    exact ⟨h5, Or.inr ⟨h1, h2, h3, h4⟩⟩
  · obtain ⟨h1, h2, h3, h4, h5⟩ := of_mem_fallbackHorizontalPass hf
    simp only [frame_has_content, decide_eq_true_eq] at h5
    exact ⟨h5, Or.inl ⟨h1, h2, h3, h4⟩⟩

/-- C4 counterexample: with `min_sprite_size = 1`, `max_sprite_size = 3`,
the fallback segmenter emits on `imgCol4` a full-height strip of height 4,
outside `[min_sprite_size, max_sprite_size]`, refuting the claim that both
dimensions of fallback frames are size-filtered. -/
theorem fallback_frame_size_cx :
    fallback_detection cfgSmall imgCol4 = [⟨1, 0, 3, 4⟩] ∧
    cfgSmall.max_sprite_size < 4 := by
  decide

/-- Witness for `fallback_frames_filter` on the strip found in `imgCol4`. -/
theorem fallback_frames_filter_witness :
    3 * 4 < 50 * nonTransparentCount imgCol4 1 0 3 4 ∧
    ((cfgSmall.min_sprite_size ≤ 3 ∧ 3 ≤ cfgSmall.max_sprite_size ∧
      0 = 0 ∧ 4 = imgCol4.height) ∨
     (cfgSmall.min_sprite_size ≤ 4 ∧ 4 ≤ cfgSmall.max_sprite_size ∧
      1 = 0 ∧ 3 = imgCol4.width)) :=
  fallback_frames_filter cfgSmall imgCol4 ⟨1, 0, 3, 4⟩ (by decide)

/-- C5 (confirmed): `remove_background` preserves dimensions and transforms
every pixel pointwise — a pixel whose R, G, B are all within
`background_tolerance` of the detected background estimate becomes fully
transparent, every other pixel is unchanged. On the white 3×3 image with one
interior red pixel and tolerance 10, all white pixels become transparent and
the red pixel survives opaque. -/
theorem remove_background_spec :
    (∀ (cfg : CutterConfig) (img : Img),
      (remove_background cfg img).width = img.width ∧
      (remove_background cfg img).height = img.height ∧
      ∀ x y, x < img.width → y < img.height →
        (remove_background cfg img).pix x y =
          (if is_background_pixel cfg (img.pix x y) (detect_background_color img) then
            (⟨0, 0, 0, 0⟩ : Pix) else img.pix x y)) ∧
    (∀ x < 3, ∀ y < 3,
      (remove_background cfgTol10 imgDot3).pix x y =
        if x = 1 ∧ y = 1 then (⟨255, 0, 0, 255⟩ : Pix) else ⟨0, 0, 0, 0⟩) := by
  refine ⟨fun cfg img => ⟨rfl, rfl, fun x y _ _ => rfl⟩, by decide⟩

/-- Witness for `remove_background_spec`: the red interior pixel of `imgDot3`
stays opaque while a white corner pixel becomes transparent. -/
theorem remove_background_spec_witness :
    (remove_background cfgTol10 imgDot3).pix 1 1 = ⟨255, 0, 0, 255⟩ ∧
    (remove_background cfgTol10 imgDot3).pix 0 0 = ⟨0, 0, 0, 0⟩ := by
  constructor
  · have h := remove_background_spec.2 1 (by decide) 1 (by decide)
    simpa using h
  · have h := remove_background_spec.2 0 (by decide) 0 (by decide)
    simpa using h

/-- C6 (confirmed): `is_background_pixel` accepts any pixel whose R, G and B
each differ from the background by exactly the tolerance, rejects any pixel
differing by at least tolerance + 1 in some channel, and never depends on
either alpha channel. -/
theorem is_background_pixel_tolerance :
    ∀ (cfg : CutterConfig) (p bg : Pix),
      ((((p.r : ℤ) - (bg.r : ℤ)).natAbs = cfg.background_tolerance ∧
        ((p.g : ℤ) - (bg.g : ℤ)).natAbs = cfg.background_tolerance ∧
        ((p.b : ℤ) - (bg.b : ℤ)).natAbs = cfg.background_tolerance) →
        is_background_pixel cfg p bg = true) ∧
      ((cfg.background_tolerance + 1 ≤ ((p.r : ℤ) - (bg.r : ℤ)).natAbs ∨
        cfg.background_tolerance + 1 ≤ ((p.g : ℤ) - (bg.g : ℤ)).natAbs ∨
        cfg.background_tolerance + 1 ≤ ((p.b : ℤ) - (bg.b : ℤ)).natAbs) →
        is_background_pixel cfg p bg = false) ∧
      (∀ a a' : ℕ,
        is_background_pixel cfg ⟨p.r, p.g, p.b, a⟩ ⟨bg.r, bg.g, bg.b, a'⟩ =
          is_background_pixel cfg p bg) := by
  intro cfg p bg
  refine ⟨?_, ?_, fun a a' => rfl⟩
  · rintro ⟨h1, h2, h3⟩
    simp only [is_background_pixel, Bool.and_eq_true, decide_eq_true_eq]
    omega
  · intro h
    rw [← Bool.not_eq_true]
    simp only [is_background_pixel, Bool.and_eq_true, decide_eq_true_eq]
    omega

/-- Witness for `is_background_pixel_tolerance` at tolerance 10: a pixel
differing by exactly 10 in every channel is accepted, one differing by 11 in
green is rejected, and flipping both alpha channels changes nothing. -/
theorem is_background_pixel_tolerance_witness :
    is_background_pixel cfgTol10 ⟨110, 90, 110, 0⟩ ⟨100, 100, 100, 255⟩ = true ∧
    is_background_pixel cfgTol10 ⟨110, 89, 110, 255⟩ ⟨100, 100, 100, 255⟩ = false ∧
    is_background_pixel cfgTol10 ⟨110, 90, 110, 7⟩ ⟨100, 100, 100, 3⟩ =
      is_background_pixel cfgTol10 ⟨110, 90, 110, 0⟩ ⟨100, 100, 100, 255⟩ := by
  refine ⟨?_, ?_, ?_⟩
  · exact (is_background_pixel_tolerance cfgTol10 ⟨110, 90, 110, 0⟩ ⟨100, 100, 100, 255⟩).1
      (by decide)
  · exact (is_background_pixel_tolerance cfgTol10 ⟨110, 89, 110, 255⟩ ⟨100, 100, 100, 255⟩).2.1
      (Or.inr (Or.inl (by decide)))
  · exact (is_background_pixel_tolerance cfgTol10 ⟨110, 90, 110, 255⟩ ⟨100, 100, 100, 255⟩).2.2 7 3 |>.trans
      ((is_background_pixel_tolerance cfgTol10 ⟨110, 90, 110, 255⟩ ⟨100, 100, 100, 255⟩).2.2 0 255).symm

/-- C7 (amended): the primary grid assembly emits frames in *column-major*
order of the boundary grid — the outer loop walks vertical boundaries (x),
the inner loop horizontal boundaries (y) — so for any two emitted frames the
earlier one has smaller x, or equal x and smaller y. -/
theorem primary_frames_column_major :
    ∀ (cfg : CutterConfig) (img : Img),
      (primaryFrames cfg img).Pairwise
        (fun f g => f.x < g.x ∨ (f.x = g.x ∧ f.y < g.y)) := by
  intro cfg img
  have hvb := (find_vertical_boundaries_spec (toLuma8 img)).2.1
  have hhb := (find_horizontal_boundaries_spec (toLuma8 img)).2.1
  simp only [primaryFrames]
  apply pairwise_flatMap_aux
  · intro i _
    refine List.Pairwise.filterMap _ ?_
      (range_pairwise_lt_mem ((find_horizontal_boundaries (toLuma8 img)).length - 1))
    intro j j' hjj' x hx y hy
    rw [Option.mem_def] at hx hy
    obtain ⟨rfl, -⟩ := eq_of_if_some hx
    obtain ⟨rfl, -⟩ := eq_of_if_some hy
    exact Or.inr ⟨rfl, getD_lt_getD_of_chain' hhb hjj'.1 (by omega)⟩
  · refine (range_pairwise_lt_mem _).imp ?_
    intro i i' hii' x hx y hy
    obtain ⟨j, -, hGx⟩ := List.mem_filterMap.mp hx
    obtain ⟨j', -, hGy⟩ := List.mem_filterMap.mp hy
    obtain ⟨rfl, -⟩ := eq_of_if_some hGx
    obtain ⟨rfl, -⟩ := eq_of_if_some hGy
    exact Or.inl (getD_lt_getD_of_chain' hvb hii'.1 (by omega))

/-- C7 counterexample: on the 2×2 grid image `imgGrid17` the primary
assembly's output is column-major, and it violates the claimed row-major
ordering (the second frame has larger y than the third). -/
theorem primary_frames_row_major_cx :
    primaryFrames defaultConfig imgGrid17 =
      [⟨0, 0, 8, 8⟩, ⟨0, 8, 8, 9⟩, ⟨8, 0, 9, 8⟩, ⟨8, 8, 9, 9⟩] ∧
    ¬ (primaryFrames defaultConfig imgGrid17).Pairwise
        (fun f g => f.y < g.y ∨ (f.y = g.y ∧ f.x < g.x)) := by
  decide

/-- C8 (amended): inside the per-image loop of `process_directory`, a failing
`process_spritesheet` (decode or frame-save failure) is caught and the batch
continues; if every zero-frame image has a succeeding `copy_single_sprite`,
the whole batch completes. However a `copy_single_sprite` failure — a decode
or save failure while copying a zero-frame image through — propagates via
`?` and aborts the loop (see the counterexample). The root variant's loop
catches every per-image failure. -/
theorem process_directory_error_handling :
    (∀ (e : String) (c : Except String Unit) (rest : List ImageJob) (total : ℕ),
      processImages total ({ processResult := Except.error e, copyResult := c } :: rest) =
        processImages total rest) ∧
    (∀ (jobs : List ImageJob) (total : ℕ),
      (∀ j ∈ jobs, j.processResult = Except.ok 0 → j.copyResult = Except.ok ()) →
      ∃ n, processImages total jobs = Except.ok n) ∧
    (∀ outcomes : List (Except String Unit), processImagesRoot outcomes = Except.ok ()) := by
  refine ⟨fun e c rest total => rfl, ?_, ?_⟩
  · intro jobs
    induction jobs with
    | nil => exact fun total _ => ⟨total, rfl⟩
    | cons j rest ih =>
      intro total hok
      have hrest : ∀ j' ∈ rest, j'.processResult = Except.ok 0 →
          j'.copyResult = Except.ok () :=
        fun j' hj' => hok j' (List.mem_cons_of_mem j hj')
      cases hp : j.processResult with
      | error e =>
        rw [show processImages total (j :: rest) = processImages total rest by
          simp [processImages, hp]]
        exact ih total hrest
      | ok n =>
        by_cases hn : n = 0
        · subst hn
          have hc := hok j (List.mem_cons_self j rest) hp
          rw [show processImages total (j :: rest) = processImages (total + 1) rest by
            simp [processImages, hp, hc]]
          exact ih (total + 1) hrest
        · rw [show processImages total (j :: rest) = processImages (total + 1) rest by
            simp [processImages, hp, hn]]
          exact ih (total + 1) hrest
  · intro outcomes
    induction outcomes with
    | nil => rfl
    | cons r rest ih => cases r <;> simpa [processImagesRoot] using ih

/-- C8 counterexample: a save failure inside `copy_single_sprite` (invoked
because the image yielded zero frames) makes `process_directory`'s loop
return an error instead of continuing with the batch. -/
theorem process_directory_copy_failure_cx :
    processImages 0
      [{ processResult := Except.ok 0, copyResult := Except.error "save failed" }] =
      Except.error "save failed" := rfl

/-- Witness for `process_directory_error_handling`: a batch whose first image
fails to decode still completes, processing the second image. -/
theorem process_directory_error_handling_witness :
    ∃ n, processImages 0
      [{ processResult := Except.error "decode failed", copyResult := Except.ok () },
       { processResult := Except.ok 3, copyResult := Except.ok () }] = Except.ok n :=
  process_directory_error_handling.2.1 _ 0 (by decide)

/-- C9 (confirmed): `detect_background_color` reads only the top-left
`min(10,w) × min(10,h)` block — two same-sized images agreeing there get the
same background estimate — and an image with an empty block (zero width or
height) yields opaque white. -/
theorem detect_background_color_block_only :
    (∀ A B : Img, A.width = B.width → A.height = B.height →
      (∀ x < min 10 A.width, ∀ y < min 10 A.height, A.pix x y = B.pix x y) →
      detect_background_color A = detect_background_color B) ∧
    (∀ img : Img, img.width = 0 ∨ img.height = 0 →
      detect_background_color img = ⟨255, 255, 255, 255⟩) := by
  constructor
  · intro A B hw hh hagree
    simp only [detect_background_color]
    rw [blockSamples_congr hw hh hagree]
  · intro img h
    have hnil : blockSamples img = [] := by
      rcases h with h | h <;> simp [blockSamples, h, List.flatMap_eq_nil_iff]
    simp only [detect_background_color, hnil]
    rfl

/-- Witness for `detect_background_color_block_only`: `imgBlockA` and
`imgBlockB` differ outside the corner block yet get the same estimate, and a
zero-width image gets opaque white. -/
theorem detect_background_color_block_only_witness :
    detect_background_color imgBlockA = detect_background_color imgBlockB ∧
    detect_background_color ⟨0, 5, fun _ _ => ⟨1, 2, 3, 4⟩⟩ = ⟨255, 255, 255, 255⟩ :=
  ⟨detect_background_color_block_only.1 imgBlockA imgBlockB rfl rfl (by decide),
   detect_background_color_block_only.2 ⟨0, 5, fun _ _ => ⟨1, 2, 3, 4⟩⟩ (Or.inl rfl)⟩

/-- C10 (confirmed): `frame_has_content` is total on any rectangle: it equals
the same density test computed over pixel access padded with fully
transparent pixels outside the image (skipped out-of-bounds pixels count as
transparent, the denominator stays `w·h`), and a rectangle lying entirely
outside the image is never reported as having content. -/
theorem frame_has_content_total_padded :
    ∀ (img : Img) (x y w h : ℕ),
      frame_has_content img x y w h = decide (w * h < 50 * paddedCount img x y w h) ∧
      ((img.width ≤ x ∨ img.height ≤ y) → frame_has_content img x y w h = false) := by
  intro img x y w h
  constructor
  · simp only [frame_has_content, nonTransparentCount_eq_paddedCount]
  · intro hcase
    simp [frame_has_content, nonTransparentCount_eq_zero_of_outside hcase]

/-- Witness for `frame_has_content_total_padded`: a 3×3 rectangle starting at
x = 20, entirely to the right of the 8×8 image, has no content. -/
theorem frame_has_content_total_padded_witness :
    frame_has_content imgGray8 20 0 3 3 = false :=
  (frame_has_content_total_padded imgGray8 20 0 3 3).2 (Or.inl (by decide))
